import Mathlib

/-!
Verification of littlefish3 (src/littlefish3/lfsmailer.py): a shallow
embedding of the mailer's address formatting, tag extraction, obscured-field
handling, global configuration, and the rate-limited SMTP log handler
(LfsSmtpHandler.emit), with theorems checking the natural-language
specification against this embedding.

Strings are modelled as lists of characters (Str).  Timestamps (Python
floats holding unix times) are modelled as rationals.  Python exceptions
are modelled by the inductive Exc; fallible steps return Except Exc.
-/

namespace LfsMailer

/-- Python strings, modelled as lists of characters. -/
abbrev Str := List Char

/-! ## Python str.strip()

Python's str.strip() removes leading and trailing ASCII whitespace
(we model the ASCII whitespace characters Python strips). -/

/-- The characters Python str.strip() removes. -/
def isPySpace (c : Char) : Bool :=
  c = ' ' || c = '\t' || c = '\n' || c = '\r' || c = '\x0b' || c = '\x0c'

/-- Python str.strip(): drop whitespace from both ends. -/
def pyStrip (s : Str) : Str :=
  ((s.dropWhile isPySpace).reverse.dropWhile isPySpace).reverse

/-! ## Splitting at the first occurrence of a character

Helper used to model the regular expressions of lfsmailer.py: all of them
consume a maximal run of characters drawn from a class that excludes some
delimiter, then the delimiter itself, so a match always splits the string
at the first occurrence of that delimiter. -/

/-- Split a string at the first occurrence of ch: some (before, after),
with ch itself removed, or none when ch does not occur. -/
def splitAtChar (ch : Char) (s : Str) : Option (Str × Str) :=
  match s.dropWhile (fun c => c ≠ ch) with
  | _ :: rest => some (s.takeWhile (fun c => c ≠ ch), rest)
  | [] => none

/-! ## Address formatting (lfsmailer.py lines 33-35, 97-119)

email_regex_string  = [a-zA-Z0-9_.+-]+@[a-zA-Z0-9-]+\.[a-zA-Z0-9-.]+
email_regex         = ^email_regex_string$
formatted_address_regex = ^([^,<]+)<(email_regex_string)>$

Since the local-part class excludes the at sign and the first domain class
excludes the dot, a whole-string match of email_regex is exactly: split at
the first at sign, then split the domain at its first dot, and check the
three pieces are nonempty runs of their classes. -/

/-- The class [a-zA-Z0-9_.+-] of email_regex_string. -/
def isLocalChar (c : Char) : Bool :=
  c.isAlpha || c.isDigit || c = '_' || c = '.' || c = '+' || c = '-'

/-- The class [a-zA-Z0-9-] of email_regex_string. -/
def isDomainChar (c : Char) : Bool :=
  c.isAlpha || c.isDigit || c = '-'

/-- The class [a-zA-Z0-9-.] of email_regex_string. -/
def isDomainDotChar (c : Char) : Bool :=
  isDomainChar c || c = '.'

/-- Whole-string match of email_regex. -/
def emailMatch (s : Str) : Bool :=
  match splitAtChar '@' s with
  | none => false
  | some (l, d) =>
    match splitAtChar '.' d with
    | none => false
    | some (d1, d2) =>
      !l.isEmpty && l.all isLocalChar &&
      !d1.isEmpty && d1.all isDomainChar &&
      !d2.isEmpty && d2.all isDomainDotChar

/-- Whole-string match of formatted_address_regex: some (name, email)
giving the two captured groups, or none. -/
def formattedMatch (s : Str) : Option (Str × Str) :=
  match splitAtChar '<' s with
  | none => none
  | some (nm, rest) =>
    if nm.isEmpty || nm.any (fun c => c = ',') then none
    else
      match rest.getLast? with
      | some c =>
        if c = '>' && emailMatch rest.dropLast then some (nm, rest.dropLast)
        else none
      | none => none

/-- format_address (lines 97-100). -/
def format_address (emailAddress : Str) (name : Option Str) : Str :=
  match name with
  | none => emailAddress
  | some n => n ++ ' ' :: '<' :: (emailAddress ++ ['>'])

/-- parse_address (lines 103-119).  The ValueError raise is modelled as
none; a successful parse returns (address, optional name), both stripped
as in the source. -/
def parse_address (s : Str) : Option (Str × Option Str) :=
  if emailMatch s then some (s, none)
  else
    match formattedMatch s with
    | some (nm, em) => some (pyStrip em, some (pyStrip nm))
    | none => none

/-! ## Tag extraction (lfsmailer.py line 36 and emit lines 297-302)

error_log_tag_regex = ^(Exception caught: )?\(([^)]+)\)
and emit appends " (tag)" to the subject when it matches record.msg. -/

/-- The literal optional group of error_log_tag_regex. -/
def exceptionCaughtMark : Str := "Exception caught: ".toList

/-- Match \(([^)]+)\) at the start of a string, returning the group. -/
def tagCore : Str → Option Str
  | c :: rest =>
    if c = '(' then
      match splitAtChar ')' rest with
      | some (t, _) => if t.isEmpty then none else some t
      | none => none
    else none
  | [] => none

/-- The tag error_log_tag_regex.search extracts from a raw log message:
groups()[-1] of the match, absent when there is no match.  The optional
prefix group is tried first; since the prefix starts with a letter and the
alternative requires an opening bracket, the two cases are disjoint. -/
def extract_tag (msg : Str) : Option Str :=
  if exceptionCaughtMark.isPrefixOf msg then
    tagCore (msg.drop exceptionCaughtMark.length)
  else tagCore msg

/-- The string emit appends to the configured subject (lines 298-302):
" (tag)" on a match, nothing otherwise. -/
def tagSuffix (rawMsg : Str) : Str :=
  match extract_tag rawMsg with
  | some t => ' ' :: '(' :: (t ++ [')'])
  | none => []

/-! ## Python exceptions

except Exception catches every ordinary exception; KeyboardInterrupt and
SystemExit derive from BaseException only, and both emit (line 313) and
the enrichment blocks of add_details let them through. -/

/-- A raised Python exception, as the module distinguishes them. -/
inductive Exc where
  | keyboardInterrupt
  | systemExit
  | error (message : Str)
deriving DecidableEq

/-- The cancellation/interrupt class that except Exception does not catch. -/
def Exc.isInterrupt : Exc → Bool
  | .keyboardInterrupt => true
  | .systemExit => true
  | .error _ => false

/-- True for an ordinary raised exception (caught by except Exception). -/
def plainErr {α : Type} : Except Exc α → Bool
  | .error e => !e.isInterrupt
  | .ok _ => false

/-! ## Obscured form fields (add_details lines 242-250)

dict(request.form) maps each submitted field name to its list of submitted
values; the loop replaces the value of any key whose lowercased name is in
_error_reporting_obscured_fields with the mask, and flattens any remaining
single-element list to its one element. -/

/-- The submitted form: field names with their lists of values. -/
abbrev FormDict := List (Str × List Str)

/-- A transformed form value: either a single string (the mask, or a
flattened single submitted value) or the original list of values. -/
inductive FormVal where
  | str (value : Str)
  | list (values : List Str)
deriving DecidableEq

/-- The mask written over obscured values (line 246). -/
def obscuredMask : Str := "******".toList

/-- Python str.lower(). -/
def pyLower (s : Str) : Str := s.map Char.toLower

/-- One iteration of the loop of add_details lines 244-248: the mask if
the lowercased key is listed, else the value list flattened to its first
element when its length is exactly 1, else the value list unchanged. -/
def obscureVal (obscuredFields : List Str) (k : Str) (vs : List Str) : FormVal :=
  if pyLower k ∈ obscuredFields then FormVal.str obscuredMask
  else if vs.length = 1 then FormVal.str vs.headI
  else FormVal.list vs

/-- The loop of add_details lines 244-248 over the whole dict: obscure
the fields whose lowercased name is listed, flatten single-element value
lists. -/
def obscureForm (obscuredFields : List Str) (form : FormDict) :
    List (Str × FormVal) :=
  form.map fun kv => (kv.1, obscureVal obscuredFields kv.1 kv.2)

/-- Every value string held by a transformed form: the strings that the
rendering of the dict (pprint.pformat at line 250) can show as values. -/
def formValStrings (form : List (Str × FormVal)) : List Str :=
  form.foldr
    (fun kv acc =>
      (match kv.2 with
       | FormVal.str s => [s]
       | FormVal.list vs => vs) ++ acc)
    []

/-- Rendering of the transformed dict.  Stand-in for pprint.pformat: it
lays out exactly the dict's keys and value strings (the layout itself is
library behaviour no claim depends on). -/
def pformatForm (form : List (Str × FormVal)) : Str :=
  form.foldr
    (fun kv acc =>
      kv.1 ++ ": ".toList ++
      (match kv.2 with
       | FormVal.str s => s
       | FormVal.list vs => List.intercalate ", ".toList vs) ++
      '\n' :: acc)
    []

/-- .replace of line 250: each newline becomes a newline and ten spaces. -/
def indentCont (s : Str) : Str :=
  s.foldr
    (fun c acc => if c = '\n' then '\n' :: (List.replicate 10 ' ' ++ acc) else c :: acc)
    []

/-! ## add_details (lines 230-269)

Two independent try/except Exception blocks: the first reads the Flask
request (url, method, endpoint, form) and appends a Request section, the
second serialises the Flask session and appends a Session section.  An
ordinary exception inside a block (including the absence of a request or
session context) only skips that block's append; an interrupt escapes. -/

/-- What the Flask request yields when it is available. -/
structure RequestData where
  url : Str
  method : Str
  endpoint : Str
  form : FormDict
deriving DecidableEq

/-- The Request section appended at lines 252-253. -/
def requestBlock (obscuredFields : List Str) (rd : RequestData) : Str :=
  "\nRequest:\n\nurl:      ".toList ++ rd.url ++
  "\nmethod:   ".toList ++ rd.method ++
  "\nendpoint: ".toList ++ rd.endpoint ++
  "\nform:     ".toList ++ indentCont (pformatForm (obscureForm obscuredFields rd.form)) ++
  "\n".toList

/-- The Session section appended at line 265; the argument is the
serialised session text (json.dumps with SessionEncoder). -/
def sessionBlock (sessionText : Str) : Str :=
  "\nSession:\n\n".toList ++ sessionText ++ "\n".toList

/-- add_details: the message with the sections the two best-effort blocks
manage to append.  reqRes and sessRes are the outcomes of reading the
Flask request and session; an ordinary failure in a block leaves the
message as it was before that block (a traceback is printed, which the
model does not record), an interrupt propagates. -/
def addDetails (obscuredFields : List Str) (message : Str)
    (reqRes : Except Exc RequestData) (sessRes : Except Exc Str) :
    Except Exc Str :=
  let afterReq : Except Exc Str :=
    match reqRes with
    | .ok rd => .ok (message ++ requestBlock obscuredFields rd)
    | .error e => if e.isInterrupt then .error e else .ok message
  match afterReq with
  | .error e => .error e
  | .ok m1 =>
    match sessRes with
    | .ok sessionText => .ok (m1 ++ sessionBlock sessionText)
    | .error e => if e.isInterrupt then .error e else .ok m1

/-! ## Global mailer configuration (lines 22-31, 50-94) and send_mail
(lines 142-184) -/

/-- The module-level globals of lfsmailer.py. -/
structure MailerGlobals where
  host : Option Str
  port : Option Str
  username : Option Str
  password : Option Str
  useTls : Option Bool
  defaultEmailFrom : Option Str
  emailToOverride : Option Str
  dumpEmailBody : Option Bool
  configured : Bool
deriving DecidableEq

/-- The globals as the module defines them: everything None, not
configured. -/
def initialGlobals : MailerGlobals :=
  ⟨none, none, none, none, none, none, none, none, false⟩

/-- The arguments of init (lines 50-59). -/
structure InitArgs where
  smtpHost : Str
  smtpPort : Str
  smtpUsername : Str
  smtpPassword : Str
  smtpUseTls : Bool
  defaultEmailFrom : Option Str
  emailToOverride : Option Str
  dumpEmailBody : Bool
deriving DecidableEq

/-- The message of the exception init raises on a second call (line 77,
with the module's __name__ filled in). -/
def multipleInitMessage : Str :=
  "Multiple calls to littlefish3.lfsmailer.init(app)".toList

/-- The message of the exception send_mail raises before init (line 152). -/
def notConfiguredMessage : Str :=
  "LFS Mailer hasn\x27t been configured".toList

/-- init (lines 50-94): raises when already configured, otherwise stores
the settings and marks the module configured. -/
def init (g : MailerGlobals) (a : InitArgs) : Except Exc MailerGlobals :=
  if g.configured then .error (.error multipleInitMessage)
  else
    .ok
      { host := some a.smtpHost
        port := some a.smtpPort
        username := some a.smtpUsername
        password := some a.smtpPassword
        useTls := some a.smtpUseTls
        defaultEmailFrom := a.defaultEmailFrom
        emailToOverride := a.emailToOverride
        dumpEmailBody := some a.dumpEmailBody
        configured := true }

/-- The one email a successful send_mail hands to the SMTP session. -/
structure OutgoingMail where
  recipients : List Str
  subject : Str
  body : Str
  html : Bool
  fromAddress : Option Str
deriving DecidableEq

/-- Comma-space join, as ', '.join. -/
def joinComma (l : List Str) : Str := List.intercalate ", ".toList l

/-- send_mail (lines 142-184): the configuration guard, the default-from
substitution and the recipient-override rewrite; the SMTP session itself
is the external collaborator, so the model returns the message handed to
it.  The raise at line 152 is the error case. -/
def send_mail (g : MailerGlobals) (recipientList : List Str)
    (subject body : Str) (html : Bool) (fromAddress : Option Str) :
    Except Exc OutgoingMail :=
  if !g.configured then .error (.error notConfiguredMessage)
  else
    let fromA := match fromAddress with
      | none => g.defaultEmailFrom
      | some f => some f
    match g.emailToOverride with
    | some ov =>
      .ok ⟨[ov], "[to ".toList ++ joinComma recipientList ++ "] ".toList ++ subject,
           body, html, fromA⟩
    | none => .ok ⟨recipientList, subject, body, html, fromA⟩

/-! ## LfsSmtpHandler and emit (lines 187-316)

Timestamps are unix times in seconds, modelled as rationals.  emit is a
state transformer on the handler; the outcomes of its effectful
sub-operations (self.format, the Flask request and session reads inside
add_details, and send_text_mail) are supplied by an oracle.  The model
returns the final handler state, the emails handed to send_text_mail that
were delivered, the log records written to the module logger, the number
of self.handleError calls, and the exception re-raised to the caller, if
any. -/

/-- The per-handler state set up in LfsSmtpHandler.__init__. -/
structure Handler where
  fromaddr : Str
  toaddrs : List Str
  subject : Str
  maxSendsPerMinute : Nat
  rateLimiter : List ℚ
deriving DecidableEq

/-- LfsSmtpHandler(fromaddr, toaddrs, subject, max_sends_per_minute=15):
the rate limiter list starts empty; a single string of to-addresses is
normalised to a one-element list before this is called. -/
def mkHandler (fromaddr : Str) (toaddrs : List Str) (subject : Str)
    (maxSendsPerMinute : Nat := 15) : Handler :=
  ⟨fromaddr, toaddrs, subject, maxSendsPerMinute, []⟩

/-- Lines 279-283: keep only the timestamps strictly newer than
now - 60 (one_minute_ago); a timestamp equal to now - 60 is purged. -/
def purgeOld (now : ℚ) (st : List ℚ) : List ℚ :=
  st.filter (fun x => now - 60 < x)

/-- Lines 279-290, the whole rate decision: purge, then permit (and record
now) exactly when the purged list is shorter than the threshold. -/
def emitRateStep (maxSends : Nat) (st : List ℚ) (now : ℚ) : Bool × List ℚ :=
  let purged := purgeOld now st
  if purged.length < maxSends then (true, purged ++ [now]) else (false, purged)

/-- The module-level flag of line 38. -/
def DEBUG_ERROR_EMAIL_SENDING : Bool := false

/-- The logging levels emit writes at. -/
inductive LogLevel where
  | debug
  | info
deriving DecidableEq

/-- One record written to the module logger. -/
abbrev LogRecord := LogLevel × Str

/-- An email delivered through send_text_mail (line 308). -/
structure Email where
  toaddrs : List Str
  subject : Str
  body : Str
  fromaddr : Str
deriving DecidableEq

/-- Line 282: log.debug of the rate limiter lengths before and after the
purge. -/
def rateDebugText (before after : Nat) : Str :=
  "Rate limiter ".toList ++ (Nat.repr before).toList ++
  " -> ".toList ++ (Nat.repr after).toList

/-- Line 310: the local warning written instead of a suppressed email. -/
def suppressWarnText : Str :=
  "!! WARNING: Not sending email as too many emails have been sent in the past minute !!".toList

/-- Line 307: the debug-flag log line (dead under the constant flag). -/
def debugSendText (toaddrs : List Str) : Str :=
  "@@@> ! Sending error email to ".toList ++ joinComma toaddrs ++ " !".toList

/-- The outcomes of emit's effectful sub-operations for one record:
self.format(record), the Flask request and session reads inside
add_details, and the send_text_mail call. -/
structure EmitOracle where
  formatRes : Except Exc Str
  reqRes : Except Exc RequestData
  sessRes : Except Exc Str
  sendRes : Except Exc Unit

/-- Everything observable about one emit call. -/
structure EmitResult where
  handler : Handler
  sent : List Email
  logs : List LogRecord
  handleErrorCalls : Nat
  propagated : Option Exc
deriving DecidableEq

/-- The two except clauses of emit (lines 313-316): an interrupt is
re-raised, any other exception goes to self.handleError(record) once. -/
def excOutcome (h2 : Handler) (logs : List LogRecord) (e : Exc) : EmitResult :=
  if e.isInterrupt then ⟨h2, [], logs, 0, some e⟩ else ⟨h2, [], logs, 1, none⟩

/-- LfsSmtpHandler.emit (lines 271-316).  The whole body runs inside
try; except (KeyboardInterrupt, SystemExit) re-raises, except Exception
calls self.handleError(record) once.  rawMsg is record.msg, the raw
pre-formatting message the tag regex searches. -/
def emit (obscuredFields : List Str) (h : Handler) (now : ℚ) (rawMsg : Str)
    (o : EmitOracle) : EmitResult :=
  let purged := purgeOld now h.rateLimiter
  let dbg : LogRecord := (LogLevel.debug, rateDebugText h.rateLimiter.length purged.length)
  let step := emitRateStep h.maxSendsPerMinute h.rateLimiter now
  let sendEmail := step.1
  let h2 : Handler := { h with rateLimiter := step.2 }
  match o.formatRes with
  | .error e => excOutcome h2 [dbg] e
  | .ok baseMsg =>
    match addDetails obscuredFields baseMsg o.reqRes o.sessRes with
    | .error e => excOutcome h2 [dbg] e
    | .ok msg =>
      let subject := h.subject ++ tagSuffix rawMsg
      if sendEmail then
        let logs :=
          if DEBUG_ERROR_EMAIL_SENDING then [dbg, (LogLevel.info, debugSendText h.toaddrs)]
          else [dbg]
        match o.sendRes with
        | .ok _ => ⟨h2, [⟨h.toaddrs, subject, msg, h.fromaddr⟩], logs, 0, none⟩
        | .error e => excOutcome h2 logs e
      else
        ⟨h2, [], [dbg, (LogLevel.info, suppressWarnText), (LogLevel.info, msg)], 0, none⟩

/-- A sequence of emit calls seen by the rate limiter alone: the permitted
flag of each call, starting from the given rate-limiter list. -/
def runEmits (maxSends : Nat) : List ℚ → List ℚ → List Bool
  | _, [] => []
  | st, t :: ts =>
    let p := emitRateStep maxSends st t
    p.1 :: runEmits maxSends p.2 ts

/-! # Helper lemmas -/

theorem takeWhile_append_cons {p : Char → Bool} {u : Str} {v : Char} {r : Str}
    (hu : ∀ c ∈ u, p c = true) (hv : p v = false) :
    (u ++ v :: r).takeWhile p = u := by
  induction u with
  | nil => simp [List.takeWhile_cons, hv]
  | cons a u ih =>
    have ha : p a = true := hu a (by simp)
    have ih2 := ih fun c hc => hu c (by simp [hc])
    simp [List.takeWhile_cons, ha, ih2]

theorem dropWhile_append_cons {p : Char → Bool} {u : Str} {v : Char} {r : Str}
    (hu : ∀ c ∈ u, p c = true) (hv : p v = false) :
    (u ++ v :: r).dropWhile p = v :: r := by
  induction u with
  | nil => simp [List.dropWhile_cons, hv]
  | cons a u ih =>
    have ha : p a = true := hu a (by simp)
    have ih2 := ih fun c hc => hu c (by simp [hc])
    simp [List.dropWhile_cons, ha, ih2]

theorem dropWhile_head_false {p : Char → Bool} {l : Str} {x : Char} {xs : Str}
    (h : l.dropWhile p = x :: xs) : p x = false := by
  induction l with
  | nil => simp at h
  | cons a t ih =>
    rw [List.dropWhile_cons] at h
    cases hpa : p a with
    | true => exact ih (by simpa [hpa] using h)
    | false =>
      rw [hpa] at h
      simp only [Bool.false_eq_true, if_false, List.cons.injEq] at h
      exact h.1 ▸ hpa

theorem splitAtChar_some_iff {ch : Char} {s a b : Str} :
    splitAtChar ch s = some (a, b) ↔ s = a ++ ch :: b ∧ ch ∉ a := by
  constructor
  · intro h
    unfold splitAtChar at h
    cases hd : s.dropWhile (fun c => c ≠ ch) with
    | nil => rw [hd] at h; cases h
    | cons x rest =>
      rw [hd] at h
      injection h with h'
      have hta : s.takeWhile (fun c => c ≠ ch) = a := congrArg Prod.fst h'
      have hrb : rest = b := congrArg Prod.snd h'
      have hx : x = ch := by
        have := dropWhile_head_false (p := fun c => c ≠ ch) hd
        simpa using this
      rw [hx, hrb] at hd
      have hsplit := List.takeWhile_append_dropWhile (fun c => decide (c ≠ ch)) s
      rw [hd, hta] at hsplit
      refine ⟨hsplit.symm, ?_⟩
      intro hc
      rw [← hta] at hc
      have := List.mem_takeWhile_imp hc
      simp at this
  · rintro ⟨rfl, hnm⟩
    have hall : ∀ c ∈ a, (fun c => decide (c ≠ ch)) c = true := by
      intro c hc
      simp only [decide_eq_true_eq]
      exact fun hcc => hnm (hcc ▸ hc)
    have hch : (fun c => decide (c ≠ ch)) ch = false := by simp
    unfold splitAtChar
    rw [dropWhile_append_cons hall hch, takeWhile_append_cons hall hch]

theorem splitAtChar_none_iff {ch : Char} {s : Str} :
    splitAtChar ch s = none ↔ ch ∉ s := by
  constructor
  · intro h hmem
    unfold splitAtChar at h
    cases hd : s.dropWhile (fun c => c ≠ ch) with
    | cons x rest => rw [hd] at h; cases h
    | nil =>
      have hsplit := List.takeWhile_append_dropWhile (fun c => decide (c ≠ ch)) s
      rw [hd, List.append_nil] at hsplit
      rw [← hsplit] at hmem
      have := List.mem_takeWhile_imp hmem
      simp at this
  · intro hnm
    unfold splitAtChar
    cases hd : s.dropWhile (fun c => c ≠ ch) with
    | nil => rfl
    | cons x rest =>
      exfalso
      have hx : x = ch := by
        have := dropWhile_head_false (p := fun c => c ≠ ch) hd
        simpa using this
      apply hnm
      have hsplit := List.takeWhile_append_dropWhile (fun c => decide (c ≠ ch)) s
      rw [hd, hx] at hsplit
      rw [← hsplit]
      simp

/-- The character classes email_regex draws on, together. -/
def isEmailChar (c : Char) : Bool :=
  isLocalChar c || c = '@' || isDomainDotChar c

theorem emailMatch_chars {s : Str} (h : emailMatch s = true) :
    ∀ c ∈ s, isEmailChar c = true := by
  unfold emailMatch at h
  split at h
  · cases h
  rename_i l d h1
  split at h
  · cases h
  rename_i d1 d2 h2
  simp only [Bool.and_eq_true] at h
  obtain ⟨⟨⟨⟨⟨-, hl⟩, -⟩, hd1⟩, -⟩, hd2⟩ := h
  obtain ⟨hs, -⟩ := splitAtChar_some_iff.mp h1
  obtain ⟨hd, -⟩ := splitAtChar_some_iff.mp h2
  subst hd hs
  intro c hc
  simp only [List.mem_append, List.mem_cons] at hc
  rcases hc with hcl | rfl | hcd1 | rfl | hcd2
  · have := List.all_eq_true.mp hl c hcl
    simp [isEmailChar, this]
  · simp [isEmailChar]
  · have := List.all_eq_true.mp hd1 c hcd1
    simp [isEmailChar, isDomainDotChar, this]
  · simp [isEmailChar, isDomainDotChar]
  · have := List.all_eq_true.mp hd2 c hcd2
    simp [isEmailChar, this]

theorem dropWhile_eq_self_of_head {p : Char → Bool} {l : Str}
    (h : ∀ c, l.head? = some c → p c = false) : l.dropWhile p = l := by
  cases l with
  | nil => rfl
  | cons a t => simp [List.dropWhile_cons, h a rfl]

theorem pyStrip_eq_self {s : Str} (h : ∀ c ∈ s, isPySpace c = false) :
    pyStrip s = s := by
  unfold pyStrip
  have h1 : s.dropWhile isPySpace = s :=
    dropWhile_eq_self_of_head fun c hc => h c (List.mem_of_mem_head? hc)
  rw [h1]
  have h2 : s.reverse.dropWhile isPySpace = s.reverse :=
    dropWhile_eq_self_of_head fun c hc =>
      h c (List.mem_reverse.mp (List.mem_of_mem_head? hc))
  rw [h2, List.reverse_reverse]

theorem pyStrip_concat_space {name : Str} (hne : name ≠ [])
    (hh : ∀ c, name.head? = some c → isPySpace c = false)
    (hl : ∀ c, name.getLast? = some c → isPySpace c = false) :
    pyStrip (name ++ [' ']) = name := by
  obtain ⟨a, t, rfl⟩ : ∃ a t, name = a :: t := by
    cases name with
    | nil => exact absurd rfl hne
    | cons a t => exact ⟨a, t, rfl⟩
  unfold pyStrip
  have h1 : ((a :: t) ++ [' ']).dropWhile isPySpace = (a :: t) ++ [' '] := by
    simp [List.cons_append, List.dropWhile_cons, hh a rfl]
  rw [h1]
  have h2 : ((a :: t) ++ [' ']).reverse = ' ' :: (a :: t).reverse := by
    simp
  rw [h2, List.dropWhile_cons]
  have hsp : isPySpace ' ' = true := by decide
  rw [hsp, if_pos rfl]
  have h3 : (a :: t).reverse.dropWhile isPySpace = (a :: t).reverse :=
    dropWhile_eq_self_of_head fun c hc => by
      rw [List.head?_reverse] at hc
      exact hl c hc
  rw [h3, List.reverse_reverse]

/-- emit always leaves the handler with the rate-limiter list the rate
decision computes, whatever the sub-operations do. -/
theorem emit_handler_eq (obscuredFields : List Str) (h : Handler) (now : ℚ)
    (rawMsg : Str) (o : EmitOracle) :
    (emit obscuredFields h now rawMsg o).handler =
      { h with rateLimiter := (emitRateStep h.maxSendsPerMinute h.rateLimiter now).2 } := by
  unfold emit excOutcome
  rcases o with ⟨fR, rR, sR, dR⟩
  dsimp only
  repeat' split
  all_goals rfl

/-- emit marks a call permitted (and can only then deliver) exactly when
the rate decision says so. -/
theorem emit_sent_imp_permitted (obscuredFields : List Str) (h : Handler) (now : ℚ)
    (rawMsg : Str) (o : EmitOracle) :
    (emit obscuredFields h now rawMsg o).sent ≠ [] →
      (emitRateStep h.maxSendsPerMinute h.rateLimiter now).1 = true := by
  unfold emit excOutcome
  rcases o with ⟨fR, rR, sR, dR⟩
  dsimp only
  repeat' split
  all_goals intro hne
  all_goals first
    | assumption
    | (exfalso; exact hne rfl)

/-! # Claim theorems -/

/-- C2: in the rate-limit decision of emit, a recorded timestamp exactly
60 seconds before now is purged and excluded from the recent-send count:
only timestamps strictly greater than now - 60 remain in the window, and
the permit flag is computed from the length of that purged window. -/
theorem purge_boundary_exclusive :
    ∀ (maxSends : Nat) (st : List ℚ) (now : ℚ),
    ((now - 60) ∉ purgeOld now st) ∧
    (∀ x, x ∈ purgeOld now st ↔ (x ∈ st ∧ now - 60 < x)) ∧
    (emitRateStep maxSends st now).1 = decide ((purgeOld now st).length < maxSends) := by
  intro maxSends st now
  refine ⟨?_, ?_, ?_⟩
  · intro hmem
    have := (List.mem_filter.mp hmem).2
    simp at this
  · intro x
    rw [purgeOld, List.mem_filter]
    simp
  · unfold emitRateStep
    by_cases hlt : (purgeOld now st).length < maxSends <;> simp [hlt]

/-- C7: the global mailer configuration is write-once and required before
use: init from the module's initial state succeeds and marks the state
configured, a second init on any configured state raises, and send_mail
on any unconfigured state (in particular the initial one) raises; both
errors surface directly to the caller. -/
theorem mailer_config_write_once :
    ∀ (a a' : InitArgs) (recipients : List Str) (subject body : Str)
      (html : Bool) (fromAddress : Option Str) (g : MailerGlobals),
    (∃ g', init initialGlobals a = .ok g') ∧
    (∀ g', init initialGlobals a = .ok g' →
       g'.configured = true ∧ init g' a' = .error (.error multipleInitMessage)) ∧
    (g.configured = true → init g a' = .error (.error multipleInitMessage)) ∧
    send_mail initialGlobals recipients subject body html fromAddress =
      .error (.error notConfiguredMessage) ∧
    (g.configured = false →
       send_mail g recipients subject body html fromAddress =
         .error (.error notConfiguredMessage)) := by
  intro a a' recipients subject body html fromAddress g
  refine ⟨⟨_, rfl⟩, ?_, ?_, rfl, ?_⟩
  · intro g' hg'
    simp only [init, initialGlobals, Bool.false_eq_true, if_false, Except.ok.injEq] at hg'
    subst hg'
    exact ⟨rfl, rfl⟩
  · intro hg
    simp [init, hg]
  · intro hg
    simp [send_mail, hg]

/-- C9: the request and session enrichment providers are each
independently best-effort: an ordinary failure of one of them neither
stops the other from appending its section nor stops the email from
being built and delivered, and when both are unavailable add_details
returns the message unchanged without raising. -/
theorem enrichment_best_effort :
    ∀ (obscuredFields : List Str) (msg : Str) (rd : RequestData)
      (sessionText : Str) (e e' : Exc) (h : Handler) (now : ℚ)
      (rawMsg baseMsg : Str),
    (addDetails obscuredFields msg (.ok rd) (.ok sessionText) =
       .ok ((msg ++ requestBlock obscuredFields rd) ++ sessionBlock sessionText)) ∧
    (e.isInterrupt = false →
       addDetails obscuredFields msg (.error e) (.ok sessionText) =
         .ok (msg ++ sessionBlock sessionText)) ∧
    (e'.isInterrupt = false →
       addDetails obscuredFields msg (.ok rd) (.error e') =
         .ok (msg ++ requestBlock obscuredFields rd)) ∧
    (e.isInterrupt = false → e'.isInterrupt = false →
       addDetails obscuredFields msg (.error e) (.error e') = .ok msg) ∧
    (e.isInterrupt = false →
       (emitRateStep h.maxSendsPerMinute h.rateLimiter now).1 = true →
       (emit obscuredFields h now rawMsg
          ⟨.ok baseMsg, .error e, .ok sessionText, .ok ()⟩).sent.length = 1) := by
  intro obscuredFields msg rd sessionText e e' h now rawMsg baseMsg
  refine ⟨rfl, ?_, ?_, ?_, ?_⟩
  · intro he
    simp [addDetails, he]
  · intro he'
    simp [addDetails, he']
  · intro he he'
    simp [addDetails, he, he']
  · intro he hstep
    unfold emit
    have had : addDetails obscuredFields baseMsg
        (Except.error (α := RequestData) e) (.ok sessionText) =
        .ok (baseMsg ++ sessionBlock sessionText) := by
      simp [addDetails, he]
    simp only [had, hstep]
    simp

/-- C10: whenever the purged recent-send count is below the threshold, emit
appends now to the rate-limiter window, and the final handler state keeps
that timestamp whatever the formatting, enrichment or send steps do — in
particular when the send raises — so failed delivery attempts still count
against the 60-second budget. -/
theorem rate_slot_consumed_before_send :
    ∀ (obscuredFields : List Str) (h : Handler) (now : ℚ) (rawMsg : Str)
      (o : EmitOracle),
    (purgeOld now h.rateLimiter).length < h.maxSendsPerMinute →
    (emit obscuredFields h now rawMsg o).handler.rateLimiter =
      purgeOld now h.rateLimiter ++ [now] := by
  intro obscuredFields h now rawMsg o hlt
  rw [emit_handler_eq]
  unfold emitRateStep
  simp [hlt]

/-- Witness for rate_slot_consumed_before_send: a fresh handler at
capacity 15 with a send that raises still records the timestamp. -/
theorem rate_slot_consumed_before_send_witness :
    (emit [] (mkHandler "f@a.b".toList ["t@a.b".toList] "Sub".toList) 0 "m".toList
       ⟨.ok "base".toList, .error (.error "no request".toList),
        .error (.error "no session".toList),
        .error (.error "SMTP down".toList)⟩).handler.rateLimiter =
      purgeOld 0 (mkHandler "f@a.b".toList ["t@a.b".toList] "Sub".toList).rateLimiter ++ [0] :=
  rate_slot_consumed_before_send [] _ 0 "m".toList _ (by decide)

/-- C8: when the rate limiter denies a send and the record formats
without error, emit dispatches no email, raises nothing, and writes to
the local log a warning stating the suppression followed by the full
(enriched) message body. -/
theorem emit_suppression_logs :
    ∀ (obscuredFields : List Str) (h : Handler) (now : ℚ) (rawMsg : Str)
      (o : EmitOracle) (baseMsg msg : Str),
    o.formatRes = .ok baseMsg →
    addDetails obscuredFields baseMsg o.reqRes o.sessRes = .ok msg →
    (emitRateStep h.maxSendsPerMinute h.rateLimiter now).1 = false →
    (emit obscuredFields h now rawMsg o).sent = [] ∧
    (emit obscuredFields h now rawMsg o).logs =
      [(LogLevel.debug,
        rateDebugText h.rateLimiter.length (purgeOld now h.rateLimiter).length),
       (LogLevel.info, suppressWarnText),
       (LogLevel.info, msg)] ∧
    (emit obscuredFields h now rawMsg o).propagated = none ∧
    (emit obscuredFields h now rawMsg o).handleErrorCalls = 0 := by
  intro obscuredFields h now rawMsg o baseMsg msg hf had hstep
  unfold emit
  simp only [hf, had, hstep, Bool.false_eq_true, if_false]
  simp

/-- Witness for emit_suppression_logs: a handler with threshold 0 always
suppresses; the body (unenriched, both providers unavailable) lands in
the local log after the warning. -/
theorem emit_suppression_logs_witness :
    (emit [] (mkHandler "f@a.b".toList ["t@a.b".toList] "Sub".toList 0) 0 "m".toList
       ⟨.ok "base".toList, .error (.error "no request".toList),
        .error (.error "no session".toList), .ok ()⟩).sent = [] ∧
    (emit [] (mkHandler "f@a.b".toList ["t@a.b".toList] "Sub".toList 0) 0 "m".toList
       ⟨.ok "base".toList, .error (.error "no request".toList),
        .error (.error "no session".toList), .ok ()⟩).logs =
      [(LogLevel.debug, rateDebugText 0 0),
       (LogLevel.info, suppressWarnText),
       (LogLevel.info, "base".toList)] ∧
    (emit [] (mkHandler "f@a.b".toList ["t@a.b".toList] "Sub".toList 0) 0 "m".toList
       ⟨.ok "base".toList, .error (.error "no request".toList),
        .error (.error "no session".toList), .ok ()⟩).propagated = none ∧
    (emit [] (mkHandler "f@a.b".toList ["t@a.b".toList] "Sub".toList 0) 0 "m".toList
       ⟨.ok "base".toList, .error (.error "no request".toList),
        .error (.error "no session".toList), .ok ()⟩).handleErrorCalls = 0 :=
  emit_suppression_logs [] (mkHandler "f@a.b".toList ["t@a.b".toList] "Sub".toList 0)
    0 "m".toList _ "base".toList "base".toList rfl rfl rfl

/-- The key rate-limiter invariant: when every timestamp already in the
window is too recent to be purged by any of the remaining calls, the
number of permitted calls is bounded by the remaining capacity. -/
theorem runEmits_count_le (maxSends : Nat) :
    ∀ (times st : List ℚ),
    (∀ t ∈ times, ∀ u ∈ times, t - u < 60) →
    (∀ x ∈ st, ∀ t ∈ times, t - 60 < x) →
    (runEmits maxSends st times).count true ≤ maxSends - st.length := by
  intro times
  induction times with
  | nil => intro st _ _; simp [runEmits]
  | cons t ts ih =>
    intro st hspan hst
    have hpurge : purgeOld t st = st := by
      apply List.filter_eq_self.mpr
      intro x hx
      simpa using hst x hx t (by simp)
    have hspan2 : ∀ a ∈ ts, ∀ u ∈ ts, a - u < 60 := fun a ha u hu =>
      hspan a (by simp [ha]) u (by simp [hu])
    unfold runEmits emitRateStep
    rw [hpurge]
    by_cases hlt : st.length < maxSends
    · rw [if_pos hlt]
      have hst2 : ∀ x ∈ st ++ [t], ∀ u ∈ ts, u - 60 < x := by
        intro x hx u hu
        rcases List.mem_append.mp hx with hxs | hxt
        · exact hst x hxs u (by simp [hu])
        · have hxt2 : x = t := by simpa using hxt
          subst hxt2
          have := hspan u (by simp [hu]) x (by simp)
          linarith
      have hrec := ih (st ++ [t]) hspan2 hst2
      rw [List.length_append] at hrec
      simp only [List.count_cons] at *
      simp at hrec ⊢
      omega
    · rw [if_neg hlt]
      have hst2 : ∀ x ∈ st, ∀ u ∈ ts, u - 60 < x := fun x hx u hu =>
        hst x hx u (by simp [hu])
      have hrec := ih st hspan2 hst2
      simp only [List.count_cons]
      simp
      omega

/-- C1 (amended): over any sequence of emit calls from a fresh handler
whose current-time values pairwise differ by strictly less than 60
seconds, at most max_sends_per_minute calls are marked permitted; and the
per-call decision of emit is exactly the emitRateStep transition (the
handler keeps its output window, and an email is only sent on a permitted
call). -/
theorem emit_rate_limit_window :
    ∀ (maxSends : Nat) (times : List ℚ),
    (∀ t ∈ times, ∀ u ∈ times, t - u < 60) →
    (runEmits maxSends [] times).count true ≤ maxSends ∧
    (∀ (obscuredFields : List Str) (h : Handler) (now : ℚ) (rawMsg : Str)
       (o : EmitOracle),
       (emit obscuredFields h now rawMsg o).handler.rateLimiter =
         (emitRateStep h.maxSendsPerMinute h.rateLimiter now).2 ∧
       ((emit obscuredFields h now rawMsg o).sent ≠ [] →
          (emitRateStep h.maxSendsPerMinute h.rateLimiter now).1 = true)) := by
  intro maxSends times hspan
  constructor
  · have := runEmits_count_le maxSends times [] hspan (by simp)
    simpa using this
  · intro obscuredFields h now rawMsg o
    exact ⟨by rw [emit_handler_eq], emit_sent_imp_permitted obscuredFields h now rawMsg o⟩

/-- Witness for emit_rate_limit_window: two calls 30 seconds apart under
threshold 1 permit at most one send. -/
theorem emit_rate_limit_window_witness :
    (runEmits 1 [] [(0:ℚ), 30]).count true ≤ 1 :=
  (emit_rate_limit_window 1 [0, 30] (by norm_num)).1

/-- Counterexample to C1 as stated: the calls at times 0 and 60 both lie
within the single 60-second span from 0 to 60, yet with threshold 1 both
are permitted — the call at 60 purges the timestamp recorded at 0
(exactly 60 seconds old), so the window is empty again. -/
theorem emit_rate_limit_boundary_cex :
    ((0:ℚ) ≤ 0 ∧ (0:ℚ) ≤ 60 ∧ (60:ℚ) - 0 ≤ 60) ∧
    runEmits 1 [] [0, 60] = [true, true] ∧
    (runEmits 1 [] [0, 60]).count true = 2 := by
  refine ⟨by norm_num, ?_, ?_⟩
  · simp [runEmits, emitRateStep, purgeOld]
  · simp [runEmits, emitRateStep, purgeOld]

/-- C3 (amended): emit never raises to its caller except that
KeyboardInterrupt/SystemExit re-propagate unmodified; an exception during
formatting or mail dispatch is caught and routed to the handler's
internal-error path (handleError) exactly once; an ordinary exception
inside the enrichment step is caught within add_details and does not
invoke handleError; handleError is never invoked more than once. -/
theorem emit_exception_routing :
    ∀ (obscuredFields : List Str) (h : Handler) (now : ℚ) (rawMsg : Str)
      (o : EmitOracle),
    (∀ e, (emit obscuredFields h now rawMsg o).propagated = some e →
       e.isInterrupt = true) ∧
    ((emit obscuredFields h now rawMsg o).handleErrorCalls ≤ 1) ∧
    (plainErr o.formatRes = true →
       (emit obscuredFields h now rawMsg o).handleErrorCalls = 1 ∧
       (emit obscuredFields h now rawMsg o).sent = [] ∧
       (emit obscuredFields h now rawMsg o).propagated = none) ∧
    (∀ baseMsg msg, o.formatRes = .ok baseMsg →
       addDetails obscuredFields baseMsg o.reqRes o.sessRes = .ok msg →
       (emitRateStep h.maxSendsPerMinute h.rateLimiter now).1 = true →
       plainErr o.sendRes = true →
       (emit obscuredFields h now rawMsg o).handleErrorCalls = 1 ∧
       (emit obscuredFields h now rawMsg o).sent = [] ∧
       (emit obscuredFields h now rawMsg o).propagated = none) ∧
    (∀ baseMsg msg, o.formatRes = .ok baseMsg →
       addDetails obscuredFields baseMsg o.reqRes o.sessRes = .ok msg →
       o.sendRes = .ok () →
       (emit obscuredFields h now rawMsg o).handleErrorCalls = 0 ∧
       (emit obscuredFields h now rawMsg o).propagated = none) ∧
    (∀ e, o.formatRes = .error e → e.isInterrupt = true →
       (emit obscuredFields h now rawMsg o).propagated = some e ∧
       (emit obscuredFields h now rawMsg o).handleErrorCalls = 0) := by
  intro obscuredFields h now rawMsg o
  refine ⟨?_, ?_, ?_, ?_, ?_, ?_⟩
  · unfold emit excOutcome
    rcases o with ⟨fR, rR, sR, dR⟩
    dsimp only
    repeat' split
    all_goals intro e he
    all_goals simp_all
  · unfold emit excOutcome
    rcases o with ⟨fR, rR, sR, dR⟩
    dsimp only
    repeat' split
    all_goals simp
  · intro hpf
    rcases hf : o.formatRes with e | b
    · have hint : e.isInterrupt = false := by
        rw [hf] at hpf
        simpa [plainErr] using hpf
      unfold emit excOutcome
      rw [hf]
      simp [hint]
    · rw [hf] at hpf
      simp [plainErr] at hpf
  · intro baseMsg msg hf had hstep hps
    rcases hd : o.sendRes with e | u
    · have hint : e.isInterrupt = false := by
        rw [hd] at hps
        simpa [plainErr] using hps
      unfold emit excOutcome
      rw [hf]
      simp [had, hstep, hd, hint]
    · rw [hd] at hps
      simp [plainErr] at hps
  · intro baseMsg msg hf had hd
    unfold emit excOutcome
    rw [hf]
    by_cases hstep : (emitRateStep h.maxSendsPerMinute h.rateLimiter now).1 = true
    · simp [had, hstep, hd]
    · simp [had, hstep]
  · intro e hf hint
    unfold emit excOutcome
    rw [hf]
    simp [hint]

/-- Counterexample to C3 as stated: an ordinary exception raised inside
the enrichment step (no Flask request available) is caught inside
add_details and handleError is invoked zero times — not exactly once —
while the email is still delivered. -/
theorem emit_enrichment_error_cex :
    (emit [] (mkHandler "f@a.b".toList ["t@a.b".toList] "Sub".toList) 0 "m".toList
       ⟨.ok "base".toList, .error (.error "boom".toList), .ok "sess".toList,
        .ok ()⟩).handleErrorCalls = 0 ∧
    (emit [] (mkHandler "f@a.b".toList ["t@a.b".toList] "Sub".toList) 0 "m".toList
       ⟨.ok "base".toList, .error (.error "boom".toList), .ok "sess".toList,
        .ok ()⟩).sent.length = 1 ∧
    (emit [] (mkHandler "f@a.b".toList ["t@a.b".toList] "Sub".toList) 0 "m".toList
       ⟨.ok "base".toList, .error (.error "boom".toList), .ok "sess".toList,
        .ok ()⟩).propagated = none := by
  refine ⟨rfl, rfl, rfl⟩

/-- C6 (amended): every form field whose lowercased name is an entry of
the obscured-field list has its value replaced by the mask, every value
string the transformed dict can render is either the mask or a value of
a field that was not obscured, and in particular password=[secret] under
the default list comes out masked, with the literal value absent. -/
theorem obscure_fields_masked :
    ∀ (obscuredFields : List Str) (form : FormDict),
    (∀ kv ∈ obscureForm obscuredFields form,
       pyLower kv.1 ∈ obscuredFields → kv.2 = FormVal.str obscuredMask) ∧
    (∀ s ∈ formValStrings (obscureForm obscuredFields form),
       s = obscuredMask ∨
         ∃ k vs, (k, vs) ∈ form ∧ pyLower k ∉ obscuredFields ∧ s ∈ vs) ∧
    obscureForm ["password".toList] [("password".toList, ["secret".toList])] =
      [("password".toList, FormVal.str obscuredMask)] ∧
    "secret".toList ∉ formValStrings
      (obscureForm ["password".toList] [("password".toList, ["secret".toList])]) := by
  intro obscuredFields form
  refine ⟨?_, ?_, by decide, by decide⟩
  · intro kv hkv hmem
    simp only [obscureForm, List.mem_map] at hkv
    obtain ⟨kv0, hin, heq⟩ := hkv
    have h1 : kv.1 = kv0.1 := by rw [← heq]
    have h2 : kv.2 = obscureVal obscuredFields kv0.1 kv0.2 := by rw [← heq]
    rw [h1] at hmem
    rw [h2]
    unfold obscureVal
    rw [if_pos hmem]
  · induction form with
    | nil => intro s hs; simp [obscureForm, formValStrings] at hs
    | cons kv form ih =>
      intro s hs
      obtain ⟨k, vs⟩ := kv
      have hsplit :
          formValStrings (obscureForm obscuredFields ((k, vs) :: form)) =
            (match obscureVal obscuredFields k vs with
             | FormVal.str s => [s]
             | FormVal.list ws => ws) ++
            formValStrings (obscureForm obscuredFields form) := rfl
      rw [hsplit] at hs
      rcases List.mem_append.mp hs with hhd | htl
      · by_cases hm : pyLower k ∈ obscuredFields
        · unfold obscureVal at hhd
          rw [if_pos hm] at hhd
          left
          simpa using hhd
        · right
          refine ⟨k, vs, by simp, hm, ?_⟩
          unfold obscureVal at hhd
          rw [if_neg hm] at hhd
          by_cases hlen : vs.length = 1
          · rw [if_pos hlen] at hhd
            obtain ⟨v, rfl⟩ := List.length_eq_one.mp hlen
            simpa using hhd
          · rw [if_neg hlen] at hhd
            simpa using hhd
      · rcases ih s htl with hmask | ⟨k0, vs0, hin0, hm0, hs0⟩
        · exact Or.inl hmask
        · exact Or.inr ⟨k0, vs0, by simp [hin0], hm0, hs0⟩

/-- Counterexample to C6 as stated: with the obscured-field list entry
written PASSWORD, the submitted field password matches it
case-insensitively, yet the code compares the lowercased key against the
entry as written, leaves the value unmasked, and the literal submitted
value appears in the output. -/
theorem obscure_fields_case_cex :
    pyLower "password".toList = pyLower "PASSWORD".toList ∧
    obscureForm ["PASSWORD".toList] [("password".toList, ["secret".toList])] =
      [("password".toList, FormVal.str "secret".toList)] ∧
    "secret".toList ∈ formValStrings
      (obscureForm ["PASSWORD".toList] [("password".toList, ["secret".toList])]) ∧
    FormVal.str "secret".toList ≠ FormVal.str obscuredMask := by
  refine ⟨by decide, by decide, by decide, by decide⟩

theorem tagCore_some_iff {cs t : Str} :
    tagCore cs = some t ↔
      ∃ rest, cs = '(' :: (t ++ ')' :: rest) ∧ t ≠ [] ∧ ')' ∉ t := by
  constructor
  · intro h
    cases cs with
    | nil => cases h
    | cons c rest0 =>
      unfold tagCore at h
      dsimp only at h
      by_cases hc : c = '('
      · rw [if_pos hc] at h
        cases hsp : splitAtChar ')' rest0 with
        | none => rw [hsp] at h; cases h
        | some p =>
          obtain ⟨t0, r⟩ := p
          rw [hsp] at h
          dsimp only at h
          by_cases ht : t0.isEmpty
          · rw [if_pos ht] at h; cases h
          · rw [if_neg ht] at h
            injection h with h'
            subst h'
            obtain ⟨hrest, hnm⟩ := splitAtChar_some_iff.mp hsp
            refine ⟨r, ?_, ?_, hnm⟩
            · rw [hc, hrest]
            · intro hnil
              rw [hnil] at ht
              exact ht rfl
      · rw [if_neg hc] at h; cases h
  · rintro ⟨rest, rfl, hne, hnm⟩
    unfold tagCore
    dsimp only
    rw [if_pos rfl]
    have hsp : splitAtChar ')' (t ++ ')' :: rest) = some (t, rest) :=
      splitAtChar_some_iff.mpr ⟨rfl, hnm⟩
    rw [hsp]
    dsimp only
    rw [if_neg (by simpa using hne)]

theorem extract_tag_some_iff {msg t : Str} :
    extract_tag msg = some t ↔
      ∃ pre rest, (pre = [] ∨ pre = exceptionCaughtMark) ∧
        msg = pre ++ '(' :: (t ++ ')' :: rest) ∧ t ≠ [] ∧ ')' ∉ t := by
  unfold extract_tag
  by_cases hp : exceptionCaughtMark.isPrefixOf msg
  · rw [if_pos hp]
    obtain ⟨u, rfl⟩ : ∃ u, msg = exceptionCaughtMark ++ u := by
      obtain ⟨u, hu⟩ := List.isPrefixOf_iff_prefix.mp hp
      exact ⟨u, hu.symm⟩
    rw [List.drop_left, tagCore_some_iff]
    constructor
    · rintro ⟨rest, rfl, hne, hnm⟩
      exact ⟨exceptionCaughtMark, rest, Or.inr rfl, rfl, hne, hnm⟩
    · rintro ⟨pre, rest, hpre01, heq, hne, hnm⟩
      rcases hpre01 with rfl | rfl
      · exfalso
        obtain ⟨mk, hmk⟩ : ∃ mk, exceptionCaughtMark = 'E' :: mk :=
          ⟨"xception caught: ".toList, by decide⟩
        rw [hmk, List.nil_append] at heq
        simp at heq
      · refine ⟨rest, ?_, hne, hnm⟩
        exact List.append_cancel_left heq
  · rw [if_neg hp, tagCore_some_iff]
    constructor
    · rintro ⟨rest, rfl, hne, hnm⟩
      exact ⟨[], rest, Or.inl rfl, rfl, hne, hnm⟩
    · rintro ⟨pre, rest, hpre01, heq, hne, hnm⟩
      rcases hpre01 with rfl | rfl
      · rw [List.nil_append] at heq
        exact ⟨rest, heq, hne, hnm⟩
      · exfalso
        apply hp
        rw [heq]
        exact List.isPrefixOf_iff_prefix.mpr ⟨_, rfl⟩

/-- Every email emit delivers carries the configured subject with the tag
suffix computed from the raw message. -/
theorem emit_sent_subject (obscuredFields : List Str) (h : Handler) (now : ℚ)
    (rawMsg : Str) (o : EmitOracle) :
    ∀ m ∈ (emit obscuredFields h now rawMsg o).sent,
      m.subject = h.subject ++ tagSuffix rawMsg := by
  unfold emit excOutcome
  rcases o with ⟨fR, rR, sR, dR⟩
  dsimp only
  repeat' split
  all_goals intro m hm
  all_goals simp_all

/-- C5: tag extraction searches the raw message for a leading
parenthesised tag optionally preceded by the literal marker, the subject
of every delivered email is the configured subject plus the bracketed
suffix exactly when a tag is found, and the two spec examples hold. -/
theorem extract_tag_spec :
    ∀ (msg t rawMsg : Str) (obscuredFields : List Str) (h : Handler)
      (now : ℚ) (o : EmitOracle),
    (extract_tag msg = some t ↔
       ∃ pre rest, (pre = [] ∨ pre = exceptionCaughtMark) ∧
         msg = pre ++ '(' :: (t ++ ')' :: rest) ∧ t ≠ [] ∧ ')' ∉ t) ∧
    (∀ m ∈ (emit obscuredFields h now rawMsg o).sent,
       m.subject = h.subject ++ tagSuffix rawMsg) ∧
    (∀ u, extract_tag rawMsg = some u →
       tagSuffix rawMsg = ' ' :: '(' :: (u ++ [')'])) ∧
    (extract_tag rawMsg = none → tagSuffix rawMsg = []) ∧
    extract_tag ("Exception caught: (DB timeout) details".toList) =
      some ("DB timeout".toList) ∧
    extract_tag ("plain message".toList) = none := by
  intro msg t rawMsg obscuredFields h now o
  refine ⟨extract_tag_some_iff, emit_sent_subject obscuredFields h now rawMsg o,
    ?_, ?_, by decide, by decide⟩
  · intro u hu
    unfold tagSuffix
    rw [hu]
  · intro hu
    unfold tagSuffix
    rw [hu]

theorem isPySpace_email_false {c : Char} (hc : isEmailChar c = true) :
    isPySpace c = false := by
  cases hsp : isPySpace c with
  | false => rfl
  | true =>
    exfalso
    have hsix : c = ' ' ∨ c = '\t' ∨ c = '\n' ∨ c = '\r' ∨ c = '\x0b' ∨ c = '\x0c' := by
      simpa [isPySpace, or_assoc] using hsp
    rcases hsix with rfl | rfl | rfl | rfl | rfl | rfl <;> exact absurd hc (by decide)

/-- The match of formatted_address_regex against a formatted address:
group 1 is the name plus the separating space, group 2 the address. -/
theorem formattedMatch_format {addr name : Str}
    (hm : emailMatch addr = true)
    (hchars : ∀ c ∈ name, c ≠ ',' ∧ c ≠ '<') :
    formattedMatch (format_address addr (some name)) =
      some (name ++ [' '], addr) := by
  have hgt : ('>' : Char) ∉ addr := by
    intro hmem
    exact absurd (emailMatch_chars hm '>' hmem) (by decide)
  unfold formattedMatch
  have hsplit : splitAtChar '<' (format_address addr (some name)) =
      some (name ++ [' '], addr ++ ['>']) := by
    apply splitAtChar_some_iff.mpr
    constructor
    · unfold format_address
      simp
    · intro hmem
      rcases List.mem_append.mp hmem with hn | hsp
      · exact (hchars '<' hn).2 rfl
      · simp at hsp
  rw [hsplit]
  dsimp only
  have hcond : ((name ++ [' ']).isEmpty || (name ++ [' ']).any (fun c => c = ',')) = false := by
    have h1 : (name ++ [' ']).isEmpty = false := by simp
    have h2 : (name ++ [' ']).any (fun c => c = ',') = false := by
      rw [List.any_eq_false]
      intro c hc
      rcases List.mem_append.mp hc with hn | hsp
      · simpa using (hchars c hn).1
      · simp at hsp
        subst hsp
        decide
    rw [h1, h2]
    rfl
  rw [hcond]
  simp only [Bool.false_eq_true, if_false]
  rw [List.getLast?_concat]
  dsimp only
  rw [List.dropLast_concat, hm]
  simp

/-- C4 (amended): for every address matching the email pattern,
parse_address inverts format_address with no name; and with any nonempty
name that contains no comma and no opening angle bracket and has no
leading or trailing whitespace, parse_address inverts format_address,
returning the address and that name. -/
theorem parse_format_roundtrip :
    ∀ (addr name : Str),
    emailMatch addr = true →
    (parse_address (format_address addr none) = some (addr, none)) ∧
    (name ≠ [] →
     (∀ c ∈ name, c ≠ ',' ∧ c ≠ '<') →
     name.head?.all (fun c => !isPySpace c) = true →
     name.getLast?.all (fun c => !isPySpace c) = true →
     parse_address (format_address addr (some name)) = some (addr, some name)) := by
  intro addr name hm
  constructor
  · have hfmt : format_address addr none = addr := rfl
    rw [hfmt]
    unfold parse_address
    rw [hm]
    simp
  · intro hne hchars hh hl
    have hh2 : ∀ c, name.head? = some c → isPySpace c = false := by
      intro c hc
      rw [hc] at hh
      simpa using hh
    have hl2 : ∀ c, name.getLast? = some c → isPySpace c = false := by
      intro c hc
      rw [hc] at hl
      simpa using hl
    have hltmem : ('<' : Char) ∈ format_address addr (some name) := by
      unfold format_address
      simp
    have hemF : emailMatch (format_address addr (some name)) = false := by
      cases hef : emailMatch (format_address addr (some name)) with
      | false => rfl
      | true => exact absurd (emailMatch_chars hef '<' hltmem) (by decide)
    unfold parse_address
    rw [hemF]
    simp only [Bool.false_eq_true, if_false]
    rw [formattedMatch_format hm hchars]
    dsimp only
    have h1 : pyStrip addr = addr :=
      pyStrip_eq_self fun c hc => isPySpace_email_false (emailMatch_chars hm c hc)
    have h2 : pyStrip (name ++ [' ']) = name := pyStrip_concat_space hne hh2 hl2
    rw [h1, h2]

/-- Witness for parse_format_roundtrip at a concrete address and name. -/
theorem parse_format_roundtrip_witness :
    parse_address (format_address "a@b.c".toList none) = some ("a@b.c".toList, none) ∧
    parse_address (format_address "a@b.c".toList (some "John Smith".toList)) =
      some ("a@b.c".toList, some "John Smith".toList) := by
  have h := parse_format_roundtrip "a@b.c".toList "John Smith".toList (by decide)
  exact ⟨h.1, h.2 (by decide) (by decide) (by decide) (by decide)⟩

/-- Counterexample to C4 as stated: for the valid email address a@b.c and
the name Doe, John (which contains a comma), parse_address raises
ValueError on the formatted address instead of returning the pair, since
the name group of formatted_address_regex admits no comma. -/
theorem parse_format_roundtrip_cex :
    emailMatch "a@b.c".toList = true ∧
    parse_address (format_address "a@b.c".toList (some "Doe, John".toList)) = none := by
  exact ⟨by decide, by decide⟩

end LfsMailer
